import Mathlib

/-!
Shallow embedding of the Todo web application (`todos/models.py`,
`todos/forms.py`, `todos/views.py`).

Modelling conventions:
- the task table is a `List Todo`; a primary key is a `Nat`;
- a calendar date is an `Int` (its ordinal day number), so the Python expression
  `date1 < date2` is integer `<` and `(date1 - date2).days` is integer
  subtraction; `timezone.now().date()` becomes an explicit `today : Int`
  argument and `auto_now` timestamps an explicit `now : Nat` argument;
- the acting authenticated user (`request.user`) is a `Nat` identifier;
- Django querysets over the table become `List.filter` / `List.find?`;
  `get_object_or_404` and `SingleObjectMixin.get_object` return `Option`
  (`none` plays the raised `Http404`);
- a form whose field clean raises `ValidationError` is an `Except String`.
-/

namespace TodoApp

/-- The `Todo` model of `todos/models.py`.  The `user` column is declared
`null=True` at the schema level ("Temporarily nullable for migration"),
hence `Option Nat`. -/
structure Todo where
  pk : Nat
  user : Option Nat
  title : String
  description : Option String
  completed : Bool
  priority : Int
  due_date : Option Int
  created_at : Nat
  updated_at : Nat
deriving Repr, DecidableEq

/-- Model of `Todo.is_overdue`: Python tests `if self.due_date and not self.completed`
(a `date` object is always truthy, `None` is falsy) and then returns
`self.due_date < timezone.now().date()`. -/
def Todo.is_overdue (t : Todo) (today : Int) : Bool :=
  match t.due_date with
  | some d => if !t.completed then decide (d < today) else false
  | none => false

/-- Model of `Todo.days_until_due`: if `self.due_date` is set, return
`(self.due_date - timezone.now().date()).days`, else `None`. -/
def Todo.days_until_due (t : Todo) (today : Int) : Option Int :=
  match t.due_date with
  | some d => some (d - today)
  | none => none

/-- The guard in `Todo.save`: `if not self.pk and not self.user: raise
ValueError("Todo must have a user")`.  `isNew` is `not self.pk` (the row
has not been inserted yet). -/
def Todo.save_guard (isNew : Bool) (t : Todo) : Except String Todo :=
  if isNew && t.user == none then
    Except.error "Todo must have a user"
  else
    Except.ok t

/-- Model of `TodoForm.clean_due_date` of `todos/forms.py`. -/
def clean_due_date (due_date : Option Int) (today : Int) : Except String (Option Int) :=
  match due_date with
  | some d =>
      if d < today then
        Except.error "Due date cannot be in the past."
      else
        Except.ok (some d)
  | none => Except.ok none

/-- the Python expression `str.strip()`: remove leading and trailing whitespace. -/
def pyStrip (s : String) : String :=
  String.mk (((s.data.dropWhile Char.isWhitespace).reverse.dropWhile
    Char.isWhitespace).reverse)

/-- the Python expression `s and s.isdigit()`: the string is nonempty (truthy) and all
of its characters are digits. -/
def pyIsDigits (s : String) : Bool :=
  !s.data.isEmpty && s.data.all Char.isDigit

/-- the Python expression `int(s)` on a digits-only string. -/
def pyInt (s : String) : Nat :=
  s.data.foldl (fun n c => 10 * n + (c.toNat - 48)) 0

/-- Model of `TodoForm.clean_title` of `todos/forms.py`: strips the submitted title
and rejects it when the stripped form is shorter than 3 characters. -/
def clean_title (title : String) : Except String String :=
  let t := pyStrip title
  if t.length < 3 then
    Except.error "Title must be atleast 3 characters long."
  else
    Except.ok t

/-- The data a `TodoForm` submission carries: the form field list holds
title, description, priority and due_date. -/
structure TodoFormData where
  title : String
  description : Option String
  priority : Int
  due_date : Option Int
deriving Repr, DecidableEq

/-- Full validation of a `TodoForm` submission: the choice set of the
`priority` field allows exactly the integers 1..5 (values outside are rejected
by the field itself), and the custom `clean_title` / `clean_due_date`
validators run on their fields.  `none` means the form is invalid. -/
def todoFormClean (d : TodoFormData) (today : Int) : Option TodoFormData :=
  match clean_title d.title, clean_due_date d.due_date today with
  | Except.ok t, Except.ok dd =>
      if 1 ≤ d.priority && d.priority ≤ 5 then
        some { d with title := t, due_date := dd }
      else
        none
  | _, _ => none

/-- Model of `TodoListView.get_queryset`: `Todo.objects.filter(user=self.request.user)`. -/
def get_queryset (db : List Todo) (u : Nat) : List Todo :=
  db.filter (fun t => t.user == some u)

/-- The context assembled by `TodoListView.get_context_data`. -/
structure ListContext where
  todos : List Todo
  total_count : Nat
  active_count : Nat
  completed_count : Nat
  overdue_count : Nat
deriving Repr, DecidableEq

/-- Model of `TodoListView.get_context_data`: statistics over the unfiltered owned
todos, then the displayed queryset obtained by applying the `status` and
`priority` GET parameters.  the Python expression `if priority and priority.isdigit()`
is `priority` nonempty and all digits. -/
def get_context_data (db : List Todo) (u : Nat) (today : Int)
    (status priority : String) : ListContext :=
  let user_todos := db.filter (fun t => t.user == some u)
  let total_count := user_todos.length
  let active_count := (user_todos.filter (fun t => !t.completed)).length
  let completed_count := (user_todos.filter (fun t => t.completed)).length
  let overdue_count := user_todos.countP (fun t => t.is_overdue today)
  let qs1 :=
    if status == "active" then user_todos.filter (fun t => !t.completed)
    else if status == "completed" then user_todos.filter (fun t => t.completed)
    else user_todos
  let qs2 :=
    if pyIsDigits priority then
      qs1.filter (fun t => t.priority == (pyInt priority : Int))
    else qs1
  { todos := qs2
    total_count := total_count
    active_count := active_count
    completed_count := completed_count
    overdue_count := overdue_count }

/-- The ownership-scoped single-object lookup shared by `TodoUpdateView`
and `TodoDeleteView`: `get_object` drawn from the view
`get_queryset` (`Todo.objects.filter(user=self.request.user)`) by `pk`;
`none` is the raised `Http404`. -/
def scoped_get_object (db : List Todo) (u : Nat) (pk : Nat) : Option Todo :=
  (db.filter (fun t => t.user == some u)).find? (fun t => t.pk == pk)

/-- Model of `TodoCreateView.form_valid` composed with form validation: on a valid
form the new row gets `user := request.user`, `completed` its default
`False`, `priority`/`due_date`/`title` from the cleaned data, and the
`Todo.save` guard runs before insertion.  `none` covers both the invalid
form (re-render, table unchanged) and the save guard firing. -/
def todo_create (db : List Todo) (u : Nat) (nextPk : Nat) (d : TodoFormData)
    (today : Int) (now : Nat) : Option (List Todo) :=
  match todoFormClean d today with
  | none => none
  | some c =>
      let t : Todo :=
        { pk := nextPk
          user := some u
          title := c.title
          description := c.description
          completed := false
          priority := c.priority
          due_date := c.due_date
          created_at := now
          updated_at := now }
      match Todo.save_guard true t with
      | Except.error _ => none
      | Except.ok t' => some (db ++ [t'])

/-- Replacement of the row with key `pk` (the UPDATE issued by saving a
fetched model instance). -/
def replacePk (db : List Todo) (pk : Nat) (t' : Todo) : List Todo :=
  db.map (fun x => if x.pk == pk then t' else x)

/-- Outcome of `TodoUpdateView`. -/
inductive UpdateResult where
  | notFound
  | invalid
  | saved (db : List Todo)
deriving Repr, DecidableEq

/-- Model of `TodoUpdateView`: fetch the object through the ownership-scoped
queryset (`Http404` when absent), validate the form (re-render leaving
the table unchanged when invalid), otherwise write the cleaned `title`,
`description`, `priority`, `due_date` back to the row; `updated_at` is
`auto_now`; `user`, `completed`, `created_at` are not form fields. -/
def todo_update (db : List Todo) (u : Nat) (pk : Nat) (d : TodoFormData)
    (today : Int) (now : Nat) : UpdateResult :=
  match scoped_get_object db u pk with
  | none => UpdateResult.notFound
  | some t =>
      match todoFormClean d today with
      | none => UpdateResult.invalid
      | some c =>
          let t' : Todo :=
            { t with
              title := c.title
              description := c.description
              priority := c.priority
              due_date := c.due_date
              updated_at := now }
          UpdateResult.saved (replacePk db pk t')

/-- Model of `toggle_completion` of `todos/views.py`:
`get_object_or_404(Todo, pk=pk, user=request.user)` then flip `completed`
and save (`updated_at` is `auto_now`).  `none` is the raised `Http404`. -/
def toggle_completion (db : List Todo) (u : Nat) (pk : Nat) (now : Nat) :
    Option (List Todo) :=
  match db.find? (fun t => t.pk == pk && t.user == some u) with
  | none => none
  | some todo =>
      let todo' : Todo := { todo with completed := !todo.completed, updated_at := now }
      some (replacePk db pk todo')

/-- Exceptions that can escape the `try` body of `TodoDeleteView.delete`.
`http404` is raised by `self.get_object()` when the scoped queryset has
no row with the requested pk; `doesNotExist` is `Todo.DoesNotExist`;
both are subclasses of `Exception`. -/
inductive DeleteExc where
  | http404
  | doesNotExist
  | otherExc
deriving Repr, DecidableEq

/-- The flash message emitted by `TodoDeleteView.delete`. -/
inductive DeleteMsg where
  | deletedOk (title : String)
  | permissionDenied
  | notFoundMsg
  | genericError
deriving Repr, DecidableEq

/-- The `try` body of `TodoDeleteView.delete`: fetch via the scoped
queryset (raising `Http404` on a miss), re-check ownership (redirect with
the permission message without deleting when it fails), delete the row
and emit the success message. -/
def todoDeleteBody (db : List Todo) (u : Nat) (pk : Nat) :
    Except DeleteExc (List Todo × DeleteMsg) :=
  match scoped_get_object db u pk with
  | none => Except.error DeleteExc.http404
  | some t =>
      if t.user != some u then
        Except.ok (db, DeleteMsg.permissionDenied)
      else
        Except.ok (db.filter (fun x => !(x.pk == pk)), DeleteMsg.deletedOk t.title)

/-- Model of `TodoDeleteView.delete` with its exception handlers: `except
Todo.DoesNotExist` first, then the bare `except Exception` (which also
catches `Http404`).  Every path redirects with a flash message. -/
def todoDeleteDelete (db : List Todo) (u : Nat) (pk : Nat) :
    List Todo × DeleteMsg :=
  match todoDeleteBody db u pk with
  | Except.ok r => r
  | Except.error e =>
      match e with
      | DeleteExc.doesNotExist => (db, DeleteMsg.notFoundMsg)
      | _ => (db, DeleteMsg.genericError)

/-- One request to a task-mutating public handler. -/
inductive Op where
  | create (u : Nat) (d : TodoFormData) (today : Int) (now : Nat)
  | update (u : Nat) (pk : Nat) (d : TodoFormData) (today : Int) (now : Nat)
  | toggle (u : Nat) (pk : Nat) (now : Nat)
  | remove (u : Nat) (pk : Nat)
deriving Repr

/-- Application state: the task table plus the next primary key the store
will assign. -/
structure AppState where
  nextPk : Nat
  todos : List Todo
deriving Repr

/-- Dispatch one request through the corresponding handler. -/
def applyOp (s : AppState) (op : Op) : AppState :=
  match op with
  | Op.create u d today now =>
      match todo_create s.todos u s.nextPk d today now with
      | some db => { nextPk := s.nextPk + 1, todos := db }
      | none => s
  | Op.update u pk d today now =>
      match todo_update s.todos u pk d today now with
      | UpdateResult.saved db => { s with todos := db }
      | _ => s
  | Op.toggle u pk now =>
      match toggle_completion s.todos u pk now with
      | some db => { s with todos := db }
      | none => s
  | Op.remove u pk => { s with todos := (todoDeleteDelete s.todos u pk).1 }

/-- Run a request sequence from the empty store. -/
def runOps (ops : List Op) : AppState :=
  ops.foldl applyOp { nextPk := 1, todos := [] }

/-- Spec-side status filter: `active` keeps incomplete tasks, `completed`
keeps completed ones, anything else keeps all. -/
def specMatchesStatus (status : String) (t : Todo) : Bool :=
  if status == "active" then !t.completed
  else if status == "completed" then t.completed
  else true

/-- Spec-side priority filter: a digits-only parameter keeps exactly the
tasks whose priority equals it, anything else keeps all. -/
def specMatchesPriority (priority : String) (t : Todo) : Bool :=
  if pyIsDigits priority then t.priority == (pyInt priority : Int)
  else true

lemma pk_inj {db : List Todo} (hnd : (db.map Todo.pk).Nodup) {t t' : Todo}
    (ht : t ∈ db) (ht' : t' ∈ db) (hpk : t.pk = t'.pk) : t = t' :=
  List.inj_on_of_nodup_map hnd ht ht' hpk

lemma find?_pk_q_eq_some (q : Todo → Bool) {db : List Todo}
    (hnd : (db.map Todo.pk).Nodup) {t : Todo} {pk : Nat}
    (ht : t ∈ db) (hpk : t.pk = pk) (hq : q t = true) :
    db.find? (fun x => x.pk == pk && q x) = some t := by
  induction db with
  | nil => cases ht
  | cons a l ih =>
      rcases List.mem_cons.mp ht with h | h
      · subst h
        rw [List.find?_cons_of_pos]
        simp [hpk, hq]
      · have hnd' := hnd
        simp only [List.map_cons, List.nodup_cons] at hnd'
        have hane : a.pk ≠ pk := by
          intro hc
          apply hnd'.1
          have : t.pk ∈ List.map Todo.pk l := List.mem_map_of_mem Todo.pk h
          rw [hpk] at this
          rw [hc]
          exact this
        rw [List.find?_cons_of_neg]
        · exact ih hnd'.2 h
        · simp [hane]
  

lemma find?_pk_eq_some {db : List Todo}
    (hnd : (db.map Todo.pk).Nodup) {t : Todo} {pk : Nat}
    (ht : t ∈ db) (hpk : t.pk = pk) :
    db.find? (fun x => x.pk == pk) = some t := by
  have h := find?_pk_q_eq_some (fun _ => true) hnd ht hpk rfl
  simpa using h

lemma find?_pk_q_eq_none (q : Todo → Bool) {db : List Todo}
    (hnd : (db.map Todo.pk).Nodup) {t : Todo} {pk : Nat}
    (ht : t ∈ db) (hpk : t.pk = pk) (hq : q t = false) :
    db.find? (fun x => x.pk == pk && q x) = none := by
  rw [List.find?_eq_none]
  intro x hx hpred
  simp only [Bool.and_eq_true, beq_iff_eq] at hpred
  have hxt : x = t := pk_inj hnd hx ht (by rw [hpred.1, hpk])
  rw [hxt, hq] at hpred
  exact Bool.false_ne_true hpred.2

lemma replacePk_map_pk {db : List Todo} {pk : Nat} {t' : Todo}
    (h : t'.pk = pk) : (replacePk db pk t').map Todo.pk = db.map Todo.pk := by
  unfold replacePk
  rw [List.map_map]
  apply List.map_congr_left
  intro a _
  by_cases hc : a.pk = pk
  · simp [Function.comp, hc, h]
  · simp [Function.comp, hc]

lemma mem_replacePk_self {db : List Todo} {pk : Nat} {t t' : Todo}
    (ht : t ∈ db) (hpk : t.pk = pk) : t' ∈ replacePk db pk t' := by
  unfold replacePk
  have hmem := List.mem_map_of_mem (fun x => if x.pk == pk then t' else x) ht
  simpa [hpk] using hmem

lemma mem_of_mem_replacePk {db : List Todo} {pk : Nat} {t' x : Todo}
    (hx : x ∈ replacePk db pk t') : x = t' ∨ x ∈ db := by
  unfold replacePk at hx
  rcases List.mem_map.mp hx with ⟨a, ha, hfa⟩
  by_cases hc : a.pk = pk
  · left; rw [← hfa]; simp [hc]
  · right; rw [← hfa]; simpa [hc] using ha

lemma scoped_get_object_eq_none {db : List Todo}
    (hnd : (db.map Todo.pk).Nodup) {t : Todo} (ht : t ∈ db)
    {uU uV : Nat} (hown : t.user = some uU) (hne : uV ≠ uU) :
    scoped_get_object db uV t.pk = none := by
  unfold scoped_get_object
  rw [List.find?_eq_none]
  intro x hx hpred
  simp only [beq_iff_eq] at hpred
  rw [List.mem_filter] at hx
  have hxt : x = t := pk_inj hnd hx.1 ht hpred
  rw [hxt, hown] at hx
  simp at hx
  exact hne hx.2.symm

/-- C5: for every task, `is_overdue` returns true if and only if the task
is not completed and its due date is set and strictly earlier than today;
in every other case (no due date, completed task, or due date today or
later) it returns false. -/
theorem is_overdue_spec (t : Todo) (today : Int) :
    t.is_overdue today = true ↔
      t.completed = false ∧ ∃ d, t.due_date = some d ∧ d < today := by
  unfold Todo.is_overdue
  cases h : t.due_date with
  | none => simp
  | some d =>
      cases hc : t.completed <;> simp

/-- C6: for every task, `days_until_due` returns the signed day difference
due_date minus today when the due date is set (3 for a due date 3 days in
the future, -2 for one 2 days in the past, 0 for one of today) and `none`
when the due date is not set. -/
theorem days_until_due_spec :
    (∀ (t : Todo) (today : Int), t.due_date = none → t.days_until_due today = none)
    ∧ (∀ (t : Todo) (today d : Int), t.due_date = some d →
        t.days_until_due today = some (d - today))
    ∧ (∀ (t : Todo) (today : Int), t.due_date = some (today + 3) →
        t.days_until_due today = some 3)
    ∧ (∀ (t : Todo) (today : Int), t.due_date = some (today - 2) →
        t.days_until_due today = some (-2))
    ∧ (∀ (t : Todo) (today : Int), t.due_date = some today →
        t.days_until_due today = some 0) := by
  refine ⟨?_, ?_, ?_, ?_, ?_⟩ <;>
    intro t today <;> unfold Todo.days_until_due
  · intro h; rw [h]
  · intro d h; rw [h]
  · intro h; rw [h]; simp
  · intro h; rw [h]; simp
  · intro h; rw [h]; simp

theorem days_until_due_witness :
    (⟨1, some 1, "w", none, false, 3, some 13, 0, 0⟩ : Todo).due_date = some (10 + 3)
    ∧ (⟨1, some 1, "w", none, false, 3, some 13, 0, 0⟩ : Todo).days_until_due 10 = some 3 :=
  ⟨by decide, days_until_due_spec.2.2.1 ⟨1, some 1, "w", none, false, 3, some 13, 0, 0⟩ 10 (by decide)⟩

/-- C3: due-date validation rejects a submitted due date if and only if it
is set and earlier than the current date: yesterday is rejected, today is
accepted, an absent due date is accepted, and every future date is
accepted (no upper bound).  The create handler rejects a past due date,
and the update handler never saves on one. -/
theorem clean_due_date_spec :
    (∀ (today : Int) (d : Option Int),
        (∃ e, clean_due_date d today = Except.error e) ↔ ∃ x, d = some x ∧ x < today)
    ∧ (∀ today : Int, ∃ e, clean_due_date (some (today - 1)) today = Except.error e)
    ∧ (∀ today : Int, clean_due_date (some today) today = Except.ok (some today))
    ∧ (∀ today : Int, clean_due_date none today = Except.ok none)
    ∧ (∀ today x : Int, today ≤ x → clean_due_date (some x) today = Except.ok (some x))
    ∧ (∀ (db : List Todo) (u npk : Nat) (d : TodoFormData) (today : Int) (now : Nat)
         (x : Int), d.due_date = some x → x < today →
           todo_create db u npk d today now = none)
    ∧ (∀ (db : List Todo) (u pk : Nat) (d : TodoFormData) (today : Int) (now : Nat)
         (x : Int), d.due_date = some x → x < today →
           todo_update db u pk d today now = UpdateResult.notFound
           ∨ todo_update db u pk d today now = UpdateResult.invalid) := by
  have herr : ∀ (today : Int) (d : Option Int),
      (∃ e, clean_due_date d today = Except.error e) ↔ ∃ x, d = some x ∧ x < today := by
    intro today d
    unfold clean_due_date
    cases d with
    | none => simp
    | some x =>
        by_cases h : x < today <;> simp [h]
  have hcleanfail : ∀ (d : TodoFormData) (today : Int) (x : Int),
      d.due_date = some x → x < today → todoFormClean d today = none := by
    intro d today x hd hx
    unfold todoFormClean clean_due_date
    rw [hd]
    simp only [hx, if_pos]
    cases clean_title d.title <;> rfl
  refine ⟨herr, ?_, ?_, ?_, ?_, ?_, ?_⟩
  · intro today
    exact (herr today (some (today - 1))).mpr ⟨today - 1, rfl, by omega⟩
  · intro today; unfold clean_due_date; simp
  · intro today; rfl
  · intro today x h
    unfold clean_due_date
    simp [not_lt.mpr h]
  · intro db u npk d today now x hd hx
    unfold todo_create
    rw [hcleanfail d today x hd hx]
  · intro db u pk d today now x hd hx
    unfold todo_update
    cases h : scoped_get_object db u pk with
    | none => left; rfl
    | some t => right; rw [hcleanfail d today x hd hx]

theorem clean_due_date_witness :
    ((10 : Int) ≤ 100 ∧ clean_due_date (some 100) 10 = Except.ok (some 100))
    ∧ ((5 : Int) < 10
        ∧ todo_create [] 1 1 ⟨"abc", none, 3, some 5⟩ 10 0 = none) :=
  ⟨⟨by norm_num, clean_due_date_spec.2.2.2.2.1 10 100 (by norm_num)⟩,
   ⟨by norm_num, clean_due_date_spec.2.2.2.2.2.1 [] 1 1 ⟨"abc", none, 3, some 5⟩ 10 0 5 rfl (by norm_num)⟩⟩

/-- C4: title validation strips surrounding whitespace and rejects the
title exactly when the stripped length is below 3 characters; "ab" is
rejected, "abc" is accepted, and the task created from an accepted
submission carries the stripped title. -/
theorem clean_title_spec :
    (∀ title : String,
        (∃ e, clean_title title = Except.error e) ↔ (pyStrip title).length < 3)
    ∧ (∀ title : String, 3 ≤ (pyStrip title).length →
        clean_title title = Except.ok (pyStrip title))
    ∧ (∃ e, clean_title "ab" = Except.error e)
    ∧ clean_title "abc" = Except.ok "abc"
    ∧ (∀ (db : List Todo) (u npk : Nat) (d : TodoFormData) (today : Int) (now : Nat)
         (db' : List Todo), todo_create db u npk d today now = some db' →
           ∃ t : Todo, db' = db ++ [t] ∧ t.title = pyStrip d.title) := by
  have herr : ∀ title : String,
      (∃ e, clean_title title = Except.error e) ↔ (pyStrip title).length < 3 := by
    intro title
    unfold clean_title
    by_cases h : (pyStrip title).length < 3 <;> simp [h]
  refine ⟨herr, ?_, ?_, ?_, ?_⟩
  · intro title h
    unfold clean_title
    simp [not_lt.mpr h]
  · exact ⟨"Title must be atleast 3 characters long.", by rfl⟩
  · rfl
  · intro db u npk d today now db' hcreate
    unfold todo_create at hcreate
    cases hclean : todoFormClean d today with
    | none => rw [hclean] at hcreate; cases hcreate
    | some c =>
        rw [hclean] at hcreate
        simp only [Todo.save_guard] at hcreate
        simp at hcreate
        refine ⟨_, hcreate.symm, ?_⟩
        unfold todoFormClean at hclean
        cases hct : clean_title d.title with
        | error e => rw [hct] at hclean; cases hclean
        | ok s =>
            rw [hct] at hclean
            cases hcd : clean_due_date d.due_date today with
            | error e => rw [hcd] at hclean; cases hclean
            | ok dd =>
                rw [hcd] at hclean
                dsimp only at hclean
                split at hclean
                · have hc := Option.some.inj hclean
                  have hs : s = pyStrip d.title := by
                    unfold clean_title at hct
                    by_cases hlt : (pyStrip d.title).length < 3
                    · rw [if_pos hlt] at hct; cases hct
                    · rw [if_neg hlt] at hct
                      exact (Except.ok.inj hct).symm
                  rw [← hc]
                  simpa using hs
                · cases hclean

theorem clean_title_witness :
    ((3 : Nat) ≤ (pyStrip "  hello  ").length
      ∧ clean_title "  hello  " = Except.ok (pyStrip "  hello  "))
    ∧ (∃ t : Todo, [] ++ [t] = [] ++ [t] ∧ t.title = pyStrip " abcd ") := by
  constructor
  · exact ⟨by decide, clean_title_spec.2.1 "  hello  " (by decide)⟩
  · have h := clean_title_spec.2.2.2.2 [] 1 1 ⟨" abcd ", none, 3, none⟩ 0 0
      ([] ++ [⟨1, some 1, "abcd", none, false, 3, none, 0, 0⟩]) (by rfl)
    rcases h with ⟨t, ht, htitle⟩
    exact ⟨t, rfl, htitle⟩

lemma get_context_data_todos_eq (db : List Todo) (u : Nat) (today : Int)
    (status priority : String) :
    (get_context_data db u today status priority).todos =
      db.filter (fun t => t.user == some u && specMatchesStatus status t
        && specMatchesPriority priority t) := by
  unfold get_context_data specMatchesStatus specMatchesPriority
  dsimp only
  by_cases h1 : (status == "active") = true <;>
    by_cases h2 : (status == "completed") = true <;>
      by_cases h3 : pyIsDigits priority = true <;>
        simp only [h1, h2, h3, if_true, if_false, Bool.false_eq_true,
          if_neg, if_pos, List.filter_filter] <;>
        · apply List.filter_congr
          intro x _
          simp [h1, h2, h3, Bool.and_comm, Bool.and_assoc, Bool.and_left_comm]

/-- C9: for every list request, the aggregate counts (total, active,
completed, overdue) are computed over the entire unfiltered owned task
set whatever status or priority parameters are supplied, while the
displayed list is exactly the owned tasks matching the requested status
and priority filters. -/
theorem list_context_spec (db : List Todo) (u : Nat) (today : Int)
    (status priority : String) :
    (get_context_data db u today status priority).total_count
        = (db.filter (fun t => t.user == some u)).length
    ∧ (get_context_data db u today status priority).active_count
        = ((db.filter (fun t => t.user == some u)).filter (fun t => !t.completed)).length
    ∧ (get_context_data db u today status priority).completed_count
        = ((db.filter (fun t => t.user == some u)).filter (fun t => t.completed)).length
    ∧ (get_context_data db u today status priority).overdue_count
        = ((db.filter (fun t => t.user == some u)).filter (fun t => t.is_overdue today)).length
    ∧ (get_context_data db u today status priority).todos
        = db.filter (fun t => t.user == some u && specMatchesStatus status t
            && specMatchesPriority priority t) := by
  refine ⟨rfl, rfl, rfl, ?_, get_context_data_todos_eq db u today status priority⟩
  unfold get_context_data
  dsimp only
  exact List.countP_eq_length_filter _ _

/-- C1: a task owned by user U is invisible to every other authenticated
user V: the list queryset and the rendered list context of V never
contain it, the scoped single-object lookup used by update and delete
misses (404), the update handler answers not-found, the toggle handler
answers 404, and the delete handler leaves the table unchanged and emits
neither a permission-denied message nor a success message for it. -/
theorem ownership_isolation
    (db : List Todo) (hnd : (db.map Todo.pk).Nodup)
    (t : Todo) (ht : t ∈ db) (uU uV : Nat)
    (hown : t.user = some uU) (hne : uV ≠ uU)
    (d : TodoFormData) (today : Int) (now : Nat) :
    t ∉ get_queryset db uV
    ∧ (∀ status priority : String,
        t ∉ (get_context_data db uV today status priority).todos)
    ∧ scoped_get_object db uV t.pk = none
    ∧ todo_update db uV t.pk d today now = UpdateResult.notFound
    ∧ toggle_completion db uV t.pk now = none
    ∧ (todoDeleteDelete db uV t.pk).1 = db
    ∧ (todoDeleteDelete db uV t.pk).2 ≠ DeleteMsg.permissionDenied
    ∧ (todoDeleteDelete db uV t.pk).2 ≠ DeleteMsg.deletedOk t.title := by
  have huser : (t.user == some uV) = false := by
    rw [hown]
    simp
    intro hc
    exact hne hc.symm
  have hscoped : scoped_get_object db uV t.pk = none :=
    scoped_get_object_eq_none hnd ht hown hne
  have hdel : todoDeleteDelete db uV t.pk = (db, DeleteMsg.genericError) := by
    unfold todoDeleteDelete todoDeleteBody
    rw [hscoped]
  refine ⟨?_, ?_, hscoped, ?_, ?_, ?_, ?_, ?_⟩
  · intro hmem
    unfold get_queryset at hmem
    rw [List.mem_filter, huser] at hmem
    exact Bool.false_ne_true hmem.2
  · intro status priority hmem
    rw [get_context_data_todos_eq] at hmem
    rw [List.mem_filter, huser] at hmem
    simp at hmem
  · unfold todo_update
    rw [hscoped]
  · unfold toggle_completion
    rw [find?_pk_q_eq_none (fun x => x.user == some uV) hnd ht rfl huser]
  · rw [hdel]
  · rw [hdel]
    simp
  · rw [hdel]
    simp

theorem ownership_isolation_witness :
    (([⟨1, some 1, "mine", none, false, 3, none, 0, 0⟩,
       ⟨2, some 2, "theirs", none, false, 3, none, 0, 0⟩] :
        List Todo).map Todo.pk).Nodup
    ∧ (⟨1, some 1, "mine", none, false, 3, none, 0, 0⟩ : Todo) ∈
        ([⟨1, some 1, "mine", none, false, 3, none, 0, 0⟩,
          ⟨2, some 2, "theirs", none, false, 3, none, 0, 0⟩] : List Todo)
    ∧ toggle_completion
        [⟨1, some 1, "mine", none, false, 3, none, 0, 0⟩,
         ⟨2, some 2, "theirs", none, false, 3, none, 0, 0⟩] 2 1 9 = none := by
  refine ⟨by decide, by decide, ?_⟩
  exact (ownership_isolation
    [⟨1, some 1, "mine", none, false, 3, none, 0, 0⟩,
     ⟨2, some 2, "theirs", none, false, 3, none, 0, 0⟩]
    (by decide) ⟨1, some 1, "mine", none, false, 3, none, 0, 0⟩ (by decide)
    1 2 (by decide) (by decide) ⟨"abc", none, 3, none⟩ 0 9).2.2.2.2.1

lemma toggle_eq_some
    {db : List Todo} (hnd : (db.map Todo.pk).Nodup)
    {t : Todo} (ht : t ∈ db) {u pk : Nat}
    (hpk : t.pk = pk) (hu : t.user = some u) (now : Nat) :
    toggle_completion db u pk now =
      some (replacePk db pk { t with completed := !t.completed, updated_at := now }) := by
  unfold toggle_completion
  rw [find?_pk_q_eq_some (fun x => x.user == some u) hnd ht hpk (by simp only [hu]; simp)]

/-- C7: for every task owned by the caller, toggling twice in succession
returns the completed flag to its original value. -/
theorem toggle_involution
    (db : List Todo) (hnd : (db.map Todo.pk).Nodup)
    (t : Todo) (ht : t ∈ db) (u pk : Nat)
    (hpk : t.pk = pk) (hu : t.user = some u) (n₁ n₂ : Nat) :
    ∃ db₁ db₂ t₂,
      toggle_completion db u pk n₁ = some db₁
      ∧ toggle_completion db₁ u pk n₂ = some db₂
      ∧ db₂.find? (fun x => x.pk == pk) = some t₂
      ∧ t₂.completed = t.completed := by
  set t₁ : Todo := { t with completed := !t.completed, updated_at := n₁ } with ht₁def
  have ht₁pk : t₁.pk = pk := hpk
  have ht₁u : t₁.user = some u := hu
  have h1 := toggle_eq_some hnd ht hpk hu n₁
  have hnd₁ : ((replacePk db pk t₁).map Todo.pk).Nodup := by
    rw [replacePk_map_pk ht₁pk]; exact hnd
  have ht₁mem : t₁ ∈ replacePk db pk t₁ := mem_replacePk_self ht hpk
  have h2 := toggle_eq_some hnd₁ ht₁mem ht₁pk ht₁u n₂
  set t₂ : Todo := { t₁ with completed := !t₁.completed, updated_at := n₂ } with ht₂def
  have ht₂pk : t₂.pk = pk := ht₁pk
  have hnd₂ : ((replacePk (replacePk db pk t₁) pk t₂).map Todo.pk).Nodup := by
    rw [replacePk_map_pk ht₂pk]; exact hnd₁
  have ht₂mem : t₂ ∈ replacePk (replacePk db pk t₁) pk t₂ :=
    mem_replacePk_self ht₁mem ht₁pk
  refine ⟨_, _, t₂, h1, h2, find?_pk_eq_some hnd₂ ht₂mem ht₂pk, ?_⟩
  show (!(!t.completed)) = t.completed
  exact Bool.not_not t.completed

theorem toggle_involution_witness :
    ∃ db₁ db₂ t₂,
      toggle_completion [⟨1, some 1, "w7", none, false, 3, none, 0, 0⟩] 1 1 5 = some db₁
      ∧ toggle_completion db₁ 1 1 6 = some db₂
      ∧ db₂.find? (fun x => x.pk == 1) = some t₂
      ∧ t₂.completed = (⟨1, some 1, "w7", none, false, 3, none, 0, 0⟩ : Todo).completed :=
  toggle_involution [⟨1, some 1, "w7", none, false, 3, none, 0, 0⟩] (by decide)
    ⟨1, some 1, "w7", none, false, 3, none, 0, 0⟩ (by decide) 1 1 (by decide) (by decide) 5 6

/-- C10: for every task owned by the caller, the toggle operation changes
only the completed flag and the server-managed `updated_at` timestamp;
title, description, priority, due date, creation time and owner are
unchanged. -/
theorem toggle_frame
    (db : List Todo) (hnd : (db.map Todo.pk).Nodup)
    (t : Todo) (ht : t ∈ db) (u pk : Nat)
    (hpk : t.pk = pk) (hu : t.user = some u) (now : Nat) :
    ∃ db₁ t₁,
      toggle_completion db u pk now = some db₁
      ∧ db₁.find? (fun x => x.pk == pk) = some t₁
      ∧ t₁.completed = !t.completed
      ∧ t₁.updated_at = now
      ∧ t₁.title = t.title
      ∧ t₁.description = t.description
      ∧ t₁.priority = t.priority
      ∧ t₁.due_date = t.due_date
      ∧ t₁.created_at = t.created_at
      ∧ t₁.user = t.user := by
  set t₁ : Todo := { t with completed := !t.completed, updated_at := now } with ht₁def
  have ht₁pk : t₁.pk = pk := hpk
  have h1 := toggle_eq_some hnd ht hpk hu now
  have hnd₁ : ((replacePk db pk t₁).map Todo.pk).Nodup := by
    rw [replacePk_map_pk ht₁pk]; exact hnd
  have ht₁mem : t₁ ∈ replacePk db pk t₁ := mem_replacePk_self ht hpk
  exact ⟨_, t₁, h1, find?_pk_eq_some hnd₁ ht₁mem ht₁pk,
    rfl, rfl, rfl, rfl, rfl, rfl, rfl, rfl⟩

theorem toggle_frame_witness :
    ∃ db₁ t₁,
      toggle_completion [⟨1, some 1, "w10", some "d", false, 4, some 20, 2, 3⟩] 1 1 9 = some db₁
      ∧ db₁.find? (fun x => x.pk == 1) = some t₁
      ∧ t₁.completed = !(⟨1, some 1, "w10", some "d", false, 4, some 20, 2, 3⟩ : Todo).completed
      ∧ t₁.updated_at = 9
      ∧ t₁.title = (⟨1, some 1, "w10", some "d", false, 4, some 20, 2, 3⟩ : Todo).title
      ∧ t₁.description = (⟨1, some 1, "w10", some "d", false, 4, some 20, 2, 3⟩ : Todo).description
      ∧ t₁.priority = (⟨1, some 1, "w10", some "d", false, 4, some 20, 2, 3⟩ : Todo).priority
      ∧ t₁.due_date = (⟨1, some 1, "w10", some "d", false, 4, some 20, 2, 3⟩ : Todo).due_date
      ∧ t₁.created_at = (⟨1, some 1, "w10", some "d", false, 4, some 20, 2, 3⟩ : Todo).created_at
      ∧ t₁.user = (⟨1, some 1, "w10", some "d", false, 4, some 20, 2, 3⟩ : Todo).user :=
  toggle_frame [⟨1, some 1, "w10", some "d", false, 4, some 20, 2, 3⟩] (by decide)
    ⟨1, some 1, "w10", some "d", false, 4, some 20, 2, 3⟩ (by decide) 1 1 (by decide) (by decide) 9

lemma applyOp_preserves_owner (s : AppState)
    (h : ∀ t ∈ s.todos, t.user ≠ none) (op : Op) :
    ∀ t ∈ (applyOp s op).todos, t.user ≠ none := by
  cases op with
  | create u d today now =>
      intro t ht
      unfold applyOp at ht
      dsimp only at ht
      cases hc : todo_create s.todos u s.nextPk d today now with
      | none => rw [hc] at ht; exact h t ht
      | some db =>
          rw [hc] at ht
          dsimp only at ht
          unfold todo_create at hc
          cases hf : todoFormClean d today with
          | none => rw [hf] at hc; cases hc
          | some c =>
              rw [hf] at hc
              simp only [Todo.save_guard] at hc
              simp at hc
              rw [← hc] at ht
              rcases List.mem_append.mp ht with hm | hm
              · exact h t hm
              · simp at hm
                rw [hm]
                simp
  | update u pk d today now =>
      intro t ht
      unfold applyOp at ht
      dsimp only at ht
      cases hc : todo_update s.todos u pk d today now with
      | notFound => rw [hc] at ht; exact h t ht
      | invalid => rw [hc] at ht; exact h t ht
      | saved db =>
          rw [hc] at ht
          dsimp only at ht
          unfold todo_update at hc
          cases hs : scoped_get_object s.todos u pk with
          | none => rw [hs] at hc; cases hc
          | some t0 =>
              rw [hs] at hc
              cases hf : todoFormClean d today with
              | none => rw [hf] at hc; cases hc
              | some c =>
                  rw [hf] at hc
                  dsimp only at hc
                  have hdb := (UpdateResult.saved.inj hc)
                  rw [← hdb] at ht
                  have ht0mem : t0 ∈ s.todos := by
                    unfold scoped_get_object at hs
                    have := List.mem_of_find?_eq_some hs
                    exact (List.mem_filter.mp this).1
                  rcases mem_of_mem_replacePk ht with he | hm
                  · rw [he]
                    dsimp only
                    exact h t0 ht0mem
                  · exact h t hm
  | toggle u pk now =>
      intro t ht
      unfold applyOp at ht
      dsimp only at ht
      cases hc : toggle_completion s.todos u pk now with
      | none => rw [hc] at ht; exact h t ht
      | some db =>
          rw [hc] at ht
          dsimp only at ht
          unfold toggle_completion at hc
          cases hf : s.todos.find? (fun x => x.pk == pk && x.user == some u) with
          | none => rw [hf] at hc; cases hc
          | some t0 =>
              rw [hf] at hc
              dsimp only at hc
              have hdb := Option.some.inj hc
              rw [← hdb] at ht
              have ht0mem : t0 ∈ s.todos := List.mem_of_find?_eq_some hf
              rcases mem_of_mem_replacePk ht with he | hm
              · rw [he]
                dsimp only
                exact h t0 ht0mem
              · exact h t hm
  | remove u pk =>
      intro t ht
      unfold applyOp todoDeleteDelete todoDeleteBody at ht
      dsimp only at ht
      cases hs : scoped_get_object s.todos u pk with
      | none =>
          rw [hs] at ht
          exact h t ht
      | some t0 =>
          rw [hs] at ht
          dsimp only at ht
          by_cases hperm : (t0.user != some u) = true
          · rw [if_pos hperm] at ht
            exact h t (by exact ht)
          · rw [if_neg hperm] at ht
            exact h t (List.mem_of_mem_filter ht)

/-- C2: starting from the empty store, after any sequence of create,
update, toggle and delete requests through the public handlers, every
persisted task has a non-null owner. -/
theorem owner_never_null (ops : List Op) :
    ∀ t ∈ (runOps ops).todos, t.user ≠ none := by
  unfold runOps
  have haux : ∀ (l : List Op) (s : AppState), (∀ t ∈ s.todos, t.user ≠ none) →
      ∀ t ∈ (l.foldl applyOp s).todos, t.user ≠ none := by
    intro l
    induction l with
    | nil => intro s hs; simpa using hs
    | cons op rest ih =>
        intro s hs
        rw [List.foldl_cons]
        exact ih (applyOp s op) (applyOp_preserves_owner s hs op)
  exact haux ops { nextPk := 1, todos := [] } (by simp)

theorem owner_never_null_witness :
    (⟨1, some 1, "alpha", none, false, 3, none, 0, 0⟩ : Todo) ∈
      (runOps [Op.create 1 ⟨"alpha", none, 3, none⟩ 0 0]).todos
    ∧ (⟨1, some 1, "alpha", none, false, 3, none, 0, 0⟩ : Todo).user ≠ none :=
  ⟨by decide, owner_never_null [Op.create 1 ⟨"alpha", none, 3, none⟩ 0 0]
    ⟨1, some 1, "alpha", none, false, 3, none, 0, 0⟩ (by decide)⟩

/-- C8: evidence of the delete-handler slip.  A POST delete of a
nonexistent (or already deleted) task id makes `get_object` raise
`Http404`, which the handler catches with its bare `except Exception`
clause, so the user receives the generic unexpected-error notification
and not the not-found/already-deleted one that the dead
`except Todo.DoesNotExist` branch would produce. -/
theorem delete_missing_task_message :
    todoDeleteBody [] 1 5 = Except.error DeleteExc.http404
    ∧ todoDeleteDelete [] 1 5 = ([], DeleteMsg.genericError)
    ∧ todoDeleteDelete [] 1 5 ≠ ([], DeleteMsg.notFoundMsg) := by
  refine ⟨rfl, rfl, ?_⟩
  decide

end TodoApp
